import Mathlib

/-!
Verification of the client-side streaming session engine of this repository.

The definitions below are a shallow embedding of the TypeScript source:

* `src/UI/src/app/services/ai-stream.service.ts` — `AiStreamService`
  (connection lifecycle, reconnect timer, dispatch filter), the `App`
  component (the conversation state store: `handleStreamEvent`,
  `ensureAgentMessage`, `releaseQueuedAgentResponses`, `stopStreaming`,
  `startNewChat`) and the wire model
  (`AgentStreamEvent`, `AgentResponseStatus`, `AgentStreamEventType`).

Conventions used in the embedding:

* TypeScript optional fields (`status?`, `token?`, …) become `Option`;
  the JavaScript truthiness tests the source performs on them
  (`!message.finished`, `if (nextMessage.finished)`) are translated as
  comparisons with `some true`, which is exactly what truthiness means for
  a field of type `boolean | undefined`.
* `Date.now()` is passed in as an explicit `now : Nat` parameter.
* `createConversationId` produces a fresh random id; the fresh id is
  passed as an explicit parameter to `startNewChat`.
* `event.responseId` is declared `required` in the wire interface
  (`AgentStreamEvent`), so it is a plain `String` here and the dead
  fallback `event.responseId ?? this.createMessageId()` collapses to it.
* Mutation of the copied `updated` array becomes `List.set`; `push`
  becomes append of a singleton.
-/

set_option linter.unusedVariables false

/-- Role of a conversation message (`type MessageRole = 'user' | 'agent'`). -/
inductive Role where
  | user
  | agent
deriving DecidableEq

/-- `AgentResponseStatus` from the wire model: the seven status values. -/
inductive AgentResponseStatus where
  | queued
  | thinking
  | streaming
  | completed
  | celebrating
  | error
  | stopped
deriving DecidableEq

/-- `AgentStreamEventType` from the wire model: the seven inbound event types. -/
inductive AgentStreamEventType where
  | responseStart
  | responseToken
  | responseStatus
  | responseEnd
  | responseError
  | responseStop
  | responseCelebration
deriving DecidableEq

/-- `AgentStreamEvent`: an inbound domain event.  `conversationId`,
`responseId` and `type` are required by the interface, the rest optional. -/
structure AgentStreamEvent where
  conversationId : String
  responseId : String
  type : AgentStreamEventType
  status : Option AgentResponseStatus := none
  token : Option String := none
  tokens : Option (List String) := none
  content : Option String := none
deriving DecidableEq

/-- `ConversationMessage` from the `App` component.  Fields marked `?` in the
source are `Option`; `visible`, `id`, `role`, `content`, `createdAt` are
required. -/
structure ConversationMessage where
  id : String
  role : Role
  content : String
  createdAt : Nat
  responseId : Option String := none
  status : Option AgentResponseStatus := none
  tokens : Option (List String) := none
  isStreaming : Option Bool := none
  finished : Option Bool := none
  visible : Bool
deriving DecidableEq

/-- The state owned by the `App` component that the stream events drive:
the active conversation id signal and the message list signal. -/
structure AppState where
  conversationId : String
  messages : List ConversationMessage
deriving DecidableEq

/-- The payload of the outbound `stop-response` command built by
`stopStreaming` (conversationId, responseId, reason). -/
structure StopCommand where
  conversationId : String
  responseId : String
  reason : String
deriving DecidableEq

/-- The `hasActiveAgent` test inside `App.ensureAgentMessage`: is there any
agent message that is not yet finished (JS truthiness on `finished`)? -/
def hasActiveAgent (messages : List ConversationMessage) : Bool :=
  messages.any (fun m => m.role == Role.agent && !(m.finished == some true))

/-- The `insertion` record built by `App.ensureAgentMessage` for a response
id with no existing message; `active` is the value of `hasActiveAgent` at
creation time. -/
def insertionFor (now : Nat) (active : Bool) (e : AgentStreamEvent) :
    ConversationMessage :=
  let initialStatus : AgentResponseStatus :=
    e.status.getD
      (if e.type == AgentStreamEventType.responseToken then .streaming else .thinking)
  { id := e.responseId
    role := Role.agent
    responseId := some e.responseId
    createdAt := now
    content := e.content.getD ("")
    tokens := some (e.tokens.getD [])
    status := some initialStatus
    isStreaming := some (initialStatus == AgentResponseStatus.thinking
      || initialStatus == AgentResponseStatus.streaming)
    finished := some false
    visible := !active }

/-- `App.ensureAgentMessage`: find the agent message matching the event's
response id; if none exists, append a fresh agent message whose visibility
is decided by the queuing rule (`visible = !hasActiveAgent`).  Returns the
updated list together with the index of the matched or created message. -/
def ensureAgentMessage (now : Nat) (messages : List ConversationMessage)
    (e : AgentStreamEvent) : List ConversationMessage × Nat :=
  match messages.findIdx?
      (fun m => m.responseId == some e.responseId && m.role == Role.agent) with
  | some existingIndex => (messages, existingIndex)
  | none =>
    (messages ++ [insertionFor now (hasActiveAgent messages) e], messages.length)

/-- The `switch (event.type)` block of `App.handleStreamEvent`: how one event
rewrites the targeted message.  Note the source has no case for
`response-celebration`, so that event leaves the message unchanged. -/
def applyEvent (target : ConversationMessage) (e : AgentStreamEvent) :
    ConversationMessage :=
  match e.type with
  | .responseStart =>
    { target with
      status := some (e.status.getD AgentResponseStatus.thinking)
      isStreaming := some true }
  | .responseToken =>
    { target with
      status := some AgentResponseStatus.streaming
      isStreaming := some true
      tokens := some (target.tokens.getD [] ++ [e.token.getD ("")])
      content := target.content ++ e.token.getD ("") }
  | .responseStatus =>
    { target with
      status := match e.status with
        | some s => some s
        | none => target.status
      isStreaming := some (e.status == some AgentResponseStatus.thinking
        || e.status == some AgentResponseStatus.streaming) }
  | .responseEnd =>
    { target with
      status := some (e.status.getD AgentResponseStatus.completed)
      isStreaming := some false
      finished := some true
      content := e.content.getD target.content }
  | .responseError =>
    { target with
      status := some AgentResponseStatus.error
      isStreaming := some false
      finished := some true }
  | .responseStop =>
    { target with
      status := some AgentResponseStatus.stopped
      isStreaming := some false
      finished := some true }
  | .responseCelebration => target

/-- `App.releaseQueuedAgentResponses`: find the earliest hidden agent message;
if the nearest preceding agent message is absent or finished, flip it to
visible. -/
def releaseQueuedAgentResponses (messages : List ConversationMessage) :
    List ConversationMessage :=
  match messages.findIdx? (fun m => m.role == Role.agent && !m.visible) with
  | none => messages
  | some hiddenIndex =>
    let previousAgent :=
      ((messages.take hiddenIndex).reverse).find? (fun m => m.role == Role.agent)
    match previousAgent with
    | none =>
      match messages[hiddenIndex]? with
      | some target => messages.set hiddenIndex { target with visible := true }
      | none => messages
    | some p =>
      if p.finished == some true then
        match messages[hiddenIndex]? with
        | some target => messages.set hiddenIndex { target with visible := true }
        | none => messages
      else messages

/-- `App.handleStreamEvent`: drop events for a non-active conversation,
otherwise resolve/create the target message, apply the event, and run the
visibility release whenever the resulting message is finished. -/
def handleStreamEvent (now : Nat) (s : AppState) (e : AgentStreamEvent) :
    AppState :=
  if e.conversationId = s.conversationId then
    let pair := ensureAgentMessage now s.messages e
    match pair.1[pair.2]? with
    | none => s
    | some target =>
      let nextMessage := applyEvent target e
      let updated := pair.1.set pair.2 nextMessage
      { s with
        messages :=
          if nextMessage.finished == some true then
            releaseQueuedAgentResponses updated
          else updated }
  else s

/-- `App.startNewChat`: replace the conversation id with a freshly generated
one and clear the message list. -/
def startNewChat (fresh : String) (s : AppState) : AppState :=
  { conversationId := fresh, messages := [] }

/-- `App.stopStreaming`: locate the latest streaming agent message (scan of
the reversed list); bail out if there is none or its response id is falsy;
otherwise send a `stop-response` command and mark the message stopped and
finished, then run the visibility release.  Returns the new state and the
command sent, if any. -/
def stopStreaming (s : AppState) : AppState × Option StopCommand :=
  match (s.messages.reverse).find?
      (fun m => m.role == Role.agent && m.isStreaming == some true) with
  | none => (s, none)
  | some active =>
    match active.responseId with
    | none => (s, none)
    | some rid =>
      if rid == ("") then (s, none)
      else
        let cmd : StopCommand :=
          { conversationId := s.conversationId
            responseId := rid
            reason := ("user-request") }
        match s.messages.findIdx? (fun m => m.id == active.id) with
        | none => (s, some cmd)
        | some index =>
          match s.messages[index]? with
          | none => (s, some cmd)
          | some t =>
            ({ s with
               messages := releaseQueuedAgentResponses
                 (s.messages.set index
                   { t with
                     status := some AgentResponseStatus.stopped
                     isStreaming := some false
                     finished := some true }) },
             some cmd)

/-- Process a list of dispatched stream events, each paired with the
`Date.now()` value observed while handling it. -/
def runEvents (s : AppState) (es : List (Nat × AgentStreamEvent)) : AppState :=
  es.foldl (fun acc p => handleStreamEvent p.1 acc p.2) s

/-! ### ConnectionManager (`AiStreamService` connection lifecycle) -/

/-- `AgentConnectionStatus` of the service. -/
inductive AgentConnectionStatus where
  | disconnected
  | connecting
  | connected
  | reconnecting
deriving DecidableEq

/-- The connection-lifecycle state of `AiStreamService`: whether a socket
object exists, the one-shot `manualClose` suppression flag, whether a
reconnect timer is pending, the connection status signal, and whether we run
in a browser platform (reconnect scheduling is a no-op otherwise). -/
structure ConnState where
  socketOpen : Bool
  manualClose : Bool
  timerPending : Bool
  status : AgentConnectionStatus
  isBrowser : Bool
deriving DecidableEq

/-- `AiStreamService.disposeSocket`: clear any pending reconnect timer and
complete/release the socket. -/
def disposeSocket (s : ConnState) : ConnState :=
  { s with timerPending := false, socketOpen := false }

/-- `AiStreamService.disconnect`: set the one-shot manual-close flag and
dispose the socket. -/
def disconnect (s : ConnState) : ConnState :=
  disposeSocket { s with manualClose := true }

/-- `AiStreamService.scheduleReconnect`: arm the reconnect timer unless one is
already pending or we are not in a browser. -/
def scheduleReconnect (s : ConnState) : ConnState :=
  if s.timerPending || !s.isBrowser then s
  else { s with timerPending := true }

/-- `AiStreamService.handleDisconnect` (the close-notification handler): if the
close was manual, consume the suppression flag and do not reconnect;
otherwise schedule a reconnect. -/
def handleDisconnect (s : ConnState) : ConnState :=
  if s.manualClose then
    { s with status := AgentConnectionStatus.disconnected, manualClose := false }
  else
    scheduleReconnect { s with status := AgentConnectionStatus.disconnected }

/-- `AiStreamService.handleError`: mark disconnected and schedule a reconnect. -/
def handleError (s : ConnState) : ConnState :=
  scheduleReconnect { s with status := AgentConnectionStatus.disconnected }

/-! ### EventDispatcher (`AiStreamService.dispatch`) -/

/-- The value found in the `type` field of a decoded payload: a string, or
some non-string JSON value. -/
inductive FieldValue where
  | str (s : String)
  | nonString
deriving DecidableEq

/-- A decoded inbound payload as far as `dispatch` inspects it: whether a
`type` field is present and what it holds.  (`dispatch` reads nothing else;
the payload is forwarded as-is when accepted.) -/
structure RawPayload where
  typeField : Option FieldValue
deriving DecidableEq

/-- The string prefix `dispatch` tests the `type` field against. -/
def respMarker : String := "response"

/-- Model of the JavaScript string primitive `startsWith` used by `dispatch`
(`payload.type.startsWith('response')`), expressed over the character list so
that it evaluates by structural recursion. -/
def strStartsWith (s pre : String) : Bool :=
  pre.toList.isPrefixOf s.toList

/-- The seven recognized response-event type strings of the wire model. -/
def recognizedResponseTypes : List String :=
  ["response-start", "response-token", "response-status", "response-end",
   "response-error", "response-stop", "response-celebration"]

/-- `AiStreamService.dispatch`: `null` payloads and payloads without a `type`
field are dropped; a payload whose `type` is a string starting with
`"response"` is emitted on the events stream; everything else is dropped. -/
def dispatch (p : Option RawPayload) : Option RawPayload :=
  match p with
  | none => none
  | some payload =>
    match payload.typeField with
    | some (FieldValue.str s) =>
      if strStartsWith s respMarker then some payload else none
    | some FieldValue.nonString => none
    | none => none

/-! ### Invariants and restricted traces used by the claims -/

/-- The ordering relation behind the single-visible-slot invariant: whenever
`b` is a visible agent message appearing after `a`, any agent message `a`
before it must already be finished. -/
def visRel (a b : ConversationMessage) : Prop :=
  b.role = Role.agent → b.visible = true → a.role = Role.agent →
    a.finished = some true

/-- Strengthened visibility invariant: along the message list, every agent
message that precedes a visible agent message is finished. -/
def StrongInv (l : List ConversationMessage) : Prop :=
  l.Pairwise visRel

/-- An agent message that is shown and not finished — the claim C1 counts
these. -/
def activeShown (m : ConversationMessage) : Bool :=
  m.role == Role.agent && m.visible && m.finished == some false

/-- Event restriction for the amended claim C4: `response-start` events carry
no status or a streaming-phase status, and no event targets a message that is
already finished. -/
def GoodEvent (s : AppState) (e : AgentStreamEvent) : Prop :=
  (e.type = AgentStreamEventType.responseStart →
    e.status = none ∨ e.status = some AgentResponseStatus.thinking ∨
      e.status = some AgentResponseStatus.streaming) ∧
  (∀ m ∈ s.messages, m.responseId = some e.responseId → m.role = Role.agent →
    m.finished ≠ some true)

/-- States reachable from a fresh conversation by dispatched stream events
satisfying `GoodEvent` (the restriction of the amended claim C4). -/
inductive GoodReach (c : String) : AppState → Prop where
  | init : GoodReach c ⟨c, []⟩
  | step (now : Nat) (s : AppState) (e : AgentStreamEvent) :
      GoodReach c s → GoodEvent s e → GoodReach c (handleStreamEvent now s e)

/-! ### Concrete fixtures used by witnesses and counterexamples -/

/-- A minimal stream event for conversation `"c"`, response id `rid`. -/
def sampleEvent (rid : String) (t : AgentStreamEventType) : AgentStreamEvent :=
  { conversationId := ("c"), responseId := rid, type := t }

/-- A finished, visible agent message fixture. -/
def msgDoneShown (rid : String) : ConversationMessage :=
  { id := rid, role := Role.agent, content := (""), createdAt := 0,
    responseId := some rid, status := some AgentResponseStatus.completed,
    isStreaming := some false, finished := some true, visible := true }

/-- A finished but still hidden agent message fixture. -/
def msgDoneHidden (rid : String) : ConversationMessage :=
  { id := rid, role := Role.agent, content := (""), createdAt := 0,
    responseId := some rid, status := some AgentResponseStatus.completed,
    isStreaming := some false, finished := some true, visible := false }

/-- An unfinished hidden agent message fixture. -/
def msgPendingHidden (rid : String) : ConversationMessage :=
  { id := rid, role := Role.agent, content := (""), createdAt := 0,
    responseId := some rid, status := some AgentResponseStatus.thinking,
    isStreaming := some true, finished := some false, visible := false }

/-- A streaming, visible agent message fixture. -/
def msgStreamingShown (rid : String) : ConversationMessage :=
  { id := rid, role := Role.agent, content := (""), createdAt := 0,
    responseId := some rid, status := some AgentResponseStatus.streaming,
    isStreaming := some true, finished := some false, visible := true }

/-- A user message fixture. -/
def msgUser (mid : String) : ConversationMessage :=
  { id := mid, role := Role.user, content := ("hi"), createdAt := 0,
    visible := true }

/-- The store state of the C8 counterexample: a finished shown agent message,
a finished hidden one, and an unfinished hidden one. -/
def stateC8 : AppState :=
  ⟨("c"), [msgDoneShown ("A"), msgDoneHidden ("B"), msgPendingHidden ("C")]⟩

/-- The repeated `response-status` event of the C8 counterexample: it targets
the finished message `A`. -/
def eventC8 : AgentStreamEvent :=
  { sampleEvent ("A") AgentStreamEventType.responseStatus with
    status := some AgentResponseStatus.completed }

/-! ## General list lemmas

Characterizations of `List.findIdx?` (which carries a start-index
accumulator) and of `List.find?` over a reversed list, plus small utilities
about `set`, `countP` and `foldl` used by the invariant proofs. -/

theorem findIdx?_some_spec {α : Type} (p : α → Bool) :
    ∀ (l : List α) (i : Nat), l.findIdx? p = some i →
      ∃ hk : i < l.length, p (l[i]) = true ∧
        ∀ j (hj : j < l.length), j < i → p (l[j]) = false := by
  intro l
  induction l with
  | nil => intro i h; simp [List.findIdx?] at h
  | cons a t ih =>
    intro i h
    rw [List.findIdx?_cons] at h
    by_cases hpa : p a
    · simp [hpa] at h
      subst h
      refine ⟨by simp, by simpa using hpa, ?_⟩
      intro j hj hj0
      omega
    · simp [hpa] at h
      obtain ⟨k, hk, hki⟩ := h
      obtain ⟨hklen, hpk, hlt⟩ := ih k hk
      subst hki
      refine ⟨by simpa using hklen, by simpa using hpk, ?_⟩
      intro j hj hjk
      cases j with
      | zero => simpa using hpa
      | succ j' =>
        have hj' : j' < t.length := by simpa using hj
        simpa using hlt j' hj' (by omega)

theorem findIdx?_eq_some_of {α : Type} (p : α → Bool) :
    ∀ (l : List α) (k : Nat) (hk : k < l.length), p (l[k]) = true →
      (∀ j (hj : j < l.length), j < k → p (l[j]) = false) →
      l.findIdx? p = some k := by
  intro l
  induction l with
  | nil => intro k hk; simp at hk
  | cons a t ih =>
    intro k hk hpk hlt
    rw [List.findIdx?_cons]
    cases k with
    | zero =>
      simp at hpk
      simp [hpk]
    | succ k' =>
      have hpa : p a = false := by simpa using hlt 0 (by simp) (by omega)
      simp only [hpa, Bool.false_eq_true, if_false]
      simp only [List.findIdx?_succ]
      refine ?_
      have := ih k' (by simpa using hk) (by simpa using hpk)
        (fun j hj hjk => by simpa using hlt (j + 1) (by simpa using hj) (by omega))
      simp [this]

theorem findIdx?_none_spec {α : Type} (p : α → Bool) (l : List α)
    (h : l.findIdx? p = none) : ∀ x ∈ l, p x = false :=
  List.findIdx?_eq_none_iff.mp h

theorem find?_reverse_spec {α : Type} (q : α → Bool) :
    ∀ (l : List α) (x : α), l.reverse.find? q = some x →
      ∃ k, ∃ hk : k < l.length, l[k] = x ∧ q x = true ∧
        ∀ j (hj : j < l.length), k < j → q (l[j]) = false := by
  intro l
  induction l using List.reverseRecOn with
  | nil => intro x h; simp at h
  | append_singleton t a ih =>
    intro x h
    rw [List.reverse_append] at h
    simp only [List.reverse_singleton, List.singleton_append] at h
    by_cases hqa : q a
    · rw [List.find?_cons_of_pos _ hqa] at h
      obtain rfl : a = x := by simpa using h
      refine ⟨t.length, by simp, ?_, hqa, ?_⟩
      · exact List.getElem_concat_length t a t.length rfl (by simp)
      · intro j hj hjk
        have : j < t.length + 1 := by simpa using hj
        omega
    · rw [List.find?_cons_of_neg _ hqa] at h
      obtain ⟨k, hk, hgx, hqx, hlt⟩ := ih x h
      refine ⟨k, by simp; omega, ?_, hqx, ?_⟩
      · rw [List.getElem_append_left hk]
        exact hgx
      · intro j hj hkj
        have hj' : j < t.length + 1 := by simpa using hj
        by_cases hjt : j < t.length
        · rw [List.getElem_append_left hjt]
          exact hlt j hjt hkj
        · have : j = t.length := by omega
          subst this
          rw [show ((t ++ [a])[t.length] = a) from
            List.getElem_concat_length t a t.length rfl (by simp)]
          simpa using hqa

theorem find?_reverse_eq_some_of {α : Type} (q : α → Bool) :
    ∀ (l : List α) (k : Nat) (hk : k < l.length), q (l[k]) = true →
      (∀ j (hj : j < l.length), k < j → q (l[j]) = false) →
      l.reverse.find? q = some (l[k]) := by
  intro l
  induction l using List.reverseRecOn with
  | nil => intro k hk; simp at hk
  | append_singleton t a ih =>
    intro k hk hq hlt
    rw [List.reverse_append]
    simp only [List.reverse_singleton, List.singleton_append]
    by_cases hkt : k = t.length
    · subst hkt
      have ha : (t ++ [a])[t.length] = a := List.getElem_concat_length t a t.length rfl (by simp)
      rw [ha] at hq
      rw [List.find?_cons_of_pos _ hq, ha]
    · have hk' : k < t.length := by
        have : k < t.length + 1 := by simpa using hk
        omega
      have hqa : q a = false := by
        have := hlt t.length (by simp) (by omega)
        rw [List.getElem_concat_length t a t.length rfl (by simp)] at this
        exact this
      rw [List.find?_cons_of_neg _ (by simp [hqa])]
      have hgk : (t ++ [a])[k] = t[k] := List.getElem_append_left hk'
      rw [hgk] at hq
      have := ih k hk' hq (fun j hj hkj => by
        have := hlt j (by simp; omega) hkj
        rwa [List.getElem_append_left hj] at this)
      rw [this, hgk]

theorem find?_reverse_eq_none {α : Type} (q : α → Bool) (l : List α)
    (h : ∀ x ∈ l, q x = false) : l.reverse.find? q = none :=
  List.find?_eq_none.mpr (fun x hx => by simp [h x (List.mem_reverse.mp hx)])

theorem set_append_length {α : Type} (l : List α) (a b : α) :
    (l ++ [a]).set l.length b = l ++ [b] := by
  rw [List.set_append_right _ _ (by omega)]
  simp

theorem countP_le_one_of_pairwise {α : Type} (q : α → Bool) (R : α → α → Prop)
    (hR : ∀ a b, R a b → q a = true → q b = true → False) :
    ∀ (l : List α), l.Pairwise R → l.countP q ≤ 1 := by
  intro l
  induction l with
  | nil => simp
  | cons a t ih =>
    intro hp
    rcases List.pairwise_cons.mp hp with ⟨ha, ht⟩
    rw [List.countP_cons]
    by_cases hqa : q a
    · have h0 : t.countP q = 0 :=
        List.countP_eq_zero.mpr (fun b hb hqb => hR a b (ha b hb) hqa hqb)
      simp [hqa, h0]
    · simpa [hqa] using ih ht

theorem foldl_invariant {σ τ : Type} (step : σ → τ → σ) (Inv : σ → Prop)
    (hstep : ∀ s t, Inv s → Inv (step s t)) :
    ∀ (es : List τ) (s : σ), Inv s → Inv (es.foldl step s) := by
  intro es
  induction es with
  | nil => intro s h; exact h
  | cons e t ih => intro s h; exact ih _ (hstep s e h)

theorem getElem?_some_of_lt {α : Type} (l : List α) (i : Nat) (h : i < l.length) :
    l[i]? = some (l[i]) :=
  (List.getElem?_eq_some_getElem_iff l i h).mpr trivial

/-! ## Field-preservation facts about single-message updates -/

theorem applyEvent_id (t : ConversationMessage) (e : AgentStreamEvent) :
    (applyEvent t e).id = t.id := by
  rcases e with ⟨cid, rid, ty, st, tok, toks, cont⟩
  cases ty <;> rfl

theorem applyEvent_role (t : ConversationMessage) (e : AgentStreamEvent) :
    (applyEvent t e).role = t.role := by
  rcases e with ⟨cid, rid, ty, st, tok, toks, cont⟩
  cases ty <;> rfl

theorem applyEvent_responseId (t : ConversationMessage) (e : AgentStreamEvent) :
    (applyEvent t e).responseId = t.responseId := by
  rcases e with ⟨cid, rid, ty, st, tok, toks, cont⟩
  cases ty <;> rfl

theorem applyEvent_visible (t : ConversationMessage) (e : AgentStreamEvent) :
    (applyEvent t e).visible = t.visible := by
  rcases e with ⟨cid, rid, ty, st, tok, toks, cont⟩
  cases ty <;> rfl

theorem applyEvent_finished_mono (t : ConversationMessage) (e : AgentStreamEvent)
    (h : t.finished = some true) : (applyEvent t e).finished = some true := by
  rcases e with ⟨cid, rid, ty, st, tok, toks, cont⟩
  cases ty <;> first | exact h | rfl

theorem handleStreamEvent_conversationId (now : Nat) (s : AppState)
    (e : AgentStreamEvent) :
    (handleStreamEvent now s e).conversationId = s.conversationId := by
  unfold handleStreamEvent
  split
  · cases hm : (ensureAgentMessage now s.messages e).1[(ensureAgentMessage now s.messages e).2]? with
    | none => simp [hm]
    | some t => simp [hm]
  · rfl

theorem runEvents_conversationId (es : List (Nat × AgentStreamEvent)) :
    ∀ s : AppState, (runEvents s es).conversationId = s.conversationId := by
  induction es with
  | nil => intro s; rfl
  | cons p t ih =>
    intro s
    show (runEvents (handleStreamEvent p.1 s p.2) t).conversationId = _
    rw [ih, handleStreamEvent_conversationId]

/-! ## Claim C9 — manual disconnect never reconnects -/

/-- C9: calling `disconnect()` never leads to a reconnect attempt.  For every
connection state — in particular one with a reconnect timer already pending —
the manual close cancels the pending timer, and the close notification that
follows it does not arm a new timer; the one-shot `manualClose` suppression
flag is consumed by that close, and the status ends at `disconnected`. -/
theorem manual_disconnect_never_reconnects (s : ConnState) :
    (disconnect s).timerPending = false ∧
    (handleDisconnect (disconnect s)).timerPending = false ∧
    (handleDisconnect (disconnect s)).manualClose = false ∧
    (handleDisconnect (disconnect s)).status = AgentConnectionStatus.disconnected := by
  simp [disconnect, disposeSocket, handleDisconnect]

/-! ## Claim C6 — dispatch filter -/

/-- C6 (counterexample): a decoded payload whose `type` field is the string
`"response-bogus"` — not one of the seven recognized response-event types —
is emitted by `dispatch` rather than rejected, because the filter only checks
the `"response"` string prefix. -/
theorem dispatch_emits_unrecognized_type :
    dispatch (some { typeField := some (FieldValue.str ("response-bogus")) }) =
      some { typeField := some (FieldValue.str ("response-bogus")) } ∧
    ("response-bogus") ∉ recognizedResponseTypes := by
  constructor
  · decide
  · decide

/-- C6 (amended): `dispatch` emits a decoded payload exactly when the payload
is non-null and carries a string-valued `type` field starting with
`"response"`.  In particular every payload whose `type` is one of the seven
recognized response-event types is emitted, while a null payload, a payload
with no `type` field, or one with a non-string `type` is rejected silently. -/
theorem dispatch_characterization (p : Option RawPayload) :
    (dispatch p = none ↔
      ¬ ∃ payload s, p = some payload ∧
        payload.typeField = some (FieldValue.str s) ∧
        strStartsWith s respMarker = true) ∧
    (∀ payload s, p = some payload →
      payload.typeField = some (FieldValue.str s) →
      s ∈ recognizedResponseTypes → dispatch p = some payload) := by
  have hseven : ∀ s ∈ recognizedResponseTypes, strStartsWith s respMarker = true := by
    decide
  constructor
  · rcases p with _ | payload
    · simp [dispatch]
    · rcases payload with ⟨tf⟩
      rcases tf with _ | fv
      · simp [dispatch]
      · rcases fv with s | _
        · by_cases hs : s.startsWith respMarker
          · simp [dispatch, hs]
          · simp [dispatch, hs]
        · simp [dispatch]
  · intro payload s hp htf hmem
    subst hp
    simp [dispatch, htf, hseven s hmem]

/-! ## Claim C5 — response-celebration -/

/-- C5: evaluation at the failing input.  A `response-start` for id `"A"`
creates the agent message with status `thinking`; the following
`response-celebration` for the same (existing) message leaves the status at
`thinking` instead of setting `celebrating`: the `switch` in
`handleStreamEvent` has no `response-celebration` case, so the event is a
no-op on the message (its `finished` flag indeed stays `false`).  The third
conjunct states the no-op in general. -/
theorem celebration_leaves_message_unchanged :
    ((runEvents ⟨("c"), []⟩
        [(0, sampleEvent ("A") AgentStreamEventType.responseStart),
         (1, sampleEvent ("A") AgentStreamEventType.responseCelebration)]).messages.map
      (fun m => (m.status, m.finished))) =
      [(some AgentResponseStatus.thinking, some false)] ∧
    AgentResponseStatus.thinking ≠ AgentResponseStatus.celebrating ∧
    ∀ t : ConversationMessage,
      applyEvent t (sampleEvent ("A") AgentStreamEventType.responseCelebration) = t := by
  refine ⟨by decide, by decide, fun t => rfl⟩

/-! ## Claim C7 — startNewSession -/

/-- C7: `startNewChat` replaces the conversation id with the freshly
generated one and clears the message list; and thereafter — no matter how
many events for the new conversation have been processed since — delivering
an event that carries the old conversation id leaves the state completely
unchanged (the event is ignored, not queued). -/
theorem startNewChat_clears_and_ignores_old (s : AppState) (fresh : String)
    (es : List (Nat × AgentStreamEvent)) (now : Nat) (e : AgentStreamEvent)
    (hfresh : fresh ≠ s.conversationId)
    (hold : e.conversationId = s.conversationId) :
    (startNewChat fresh s).messages = [] ∧
    (startNewChat fresh s).conversationId = fresh ∧
    handleStreamEvent now (runEvents (startNewChat fresh s) es) e =
      runEvents (startNewChat fresh s) es := by
  refine ⟨rfl, rfl, ?_⟩
  have hcid : (runEvents (startNewChat fresh s) es).conversationId = fresh :=
    runEvents_conversationId es (startNewChat fresh s)
  unfold handleStreamEvent
  rw [if_neg]
  rw [hcid, hold]
  exact fun h => hfresh h.symm

/-- Witness for C7 at a concrete input: old conversation `"c"`, fresh id
`"d"`, no interleaved events, and a `response-start` still tagged `"c"`. -/
theorem startNewChat_clears_and_ignores_old_witness :
    (startNewChat ("d") ⟨("c"), []⟩).messages = [] ∧
    (startNewChat ("d") ⟨("c"), []⟩).conversationId = ("d") ∧
    handleStreamEvent 0 (runEvents (startNewChat ("d") ⟨("c"), []⟩) [])
        (sampleEvent ("A") AgentStreamEventType.responseStart) =
      runEvents (startNewChat ("d") ⟨("c"), []⟩) [] :=
  startNewChat_clears_and_ignores_old ⟨("c"), []⟩ ("d") [] 0
    (sampleEvent ("A") AgentStreamEventType.responseStart)
    (by decide) (by decide)

/-! ## Unfolding lemmas for `handleStreamEvent` -/

theorem handleStreamEvent_other_conversation (now : Nat) (s : AppState)
    (e : AgentStreamEvent) (hc : e.conversationId ≠ s.conversationId) :
    handleStreamEvent now s e = s := by
  unfold handleStreamEvent
  rw [if_neg hc]

theorem handleStreamEvent_found (now : Nat) (s : AppState)
    (e : AgentStreamEvent) (i : Nat)
    (hc : e.conversationId = s.conversationId)
    (hfi : s.messages.findIdx?
      (fun m => m.responseId == some e.responseId && m.role == Role.agent) = some i)
    (hi : i < s.messages.length) :
    handleStreamEvent now s e =
      { s with messages :=
          if (applyEvent (s.messages[i]) e).finished == some true then
            releaseQueuedAgentResponses (s.messages.set i (applyEvent (s.messages[i]) e))
          else s.messages.set i (applyEvent (s.messages[i]) e) } := by
  unfold handleStreamEvent
  rw [if_pos hc]
  simp only [ensureAgentMessage, hfi]
  rw [getElem?_some_of_lt s.messages i hi]

theorem handleStreamEvent_created (now : Nat) (s : AppState)
    (e : AgentStreamEvent)
    (hc : e.conversationId = s.conversationId)
    (hfi : s.messages.findIdx?
      (fun m => m.responseId == some e.responseId && m.role == Role.agent) = none) :
    handleStreamEvent now s e =
      { s with messages :=
          if (applyEvent (insertionFor now (hasActiveAgent s.messages) e) e).finished
              == some true then
            releaseQueuedAgentResponses (s.messages ++ [applyEvent (insertionFor now (hasActiveAgent s.messages) e) e])
          else
            s.messages ++ [applyEvent (insertionFor now (hasActiveAgent s.messages) e) e] } := by
  unfold handleStreamEvent
  rw [if_pos hc]
  simp only [ensureAgentMessage, hfi]
  rw [List.getElem?_concat_length]
  simp only [set_append_length]

/-! ## Claim C8 — idempotence of response-status -/

theorem applyEvent_status_fields (t : ConversationMessage) (e : AgentStreamEvent)
    (hty : e.type = AgentStreamEventType.responseStatus) :
    (applyEvent t e).finished = t.finished ∧
    applyEvent (applyEvent t e) e = applyEvent t e := by
  rcases e with ⟨cid, rid, ty, st, tok, toks, cont⟩
  simp only at hty
  subst hty
  rcases st with _ | s' <;> exact ⟨rfl, rfl⟩

/-- C8 (counterexample): delivering the same `response-status` event twice is
not always the same as delivering it once.  In `stateC8` (finished shown
agent message `A`, finished hidden `B`, unfinished hidden `C`), the event
`eventC8` targets the already-finished `A`; each delivery re-runs the
visibility release, so the first delivery reveals `B` and the second
additionally reveals `C`, changing the message list again. -/
theorem responseStatus_not_idempotent :
    handleStreamEvent 1 (handleStreamEvent 0 stateC8 eventC8) eventC8 ≠
      handleStreamEvent 0 stateC8 eventC8 := by
  decide

/-- C8 (amended): delivering the same `response-status` event twice in
succession yields a message state identical to delivering it once, provided
every agent message carrying the event's response id is still unfinished
(in particular when the target does not exist yet and is created by the
first delivery).  The proviso is forced by the counterexample: when the
target is already finished, each delivery re-runs the visibility release,
which can flip one more hidden message per delivery. -/
theorem responseStatus_idempotent_on_unfinished (s : AppState)
    (e : AgentStreamEvent) (now1 now2 : Nat)
    (hty : e.type = AgentStreamEventType.responseStatus)
    (hunfin : ∀ m ∈ s.messages, m.role = Role.agent →
      m.responseId = some e.responseId → m.finished ≠ some true) :
    handleStreamEvent now2 (handleStreamEvent now1 s e) e =
      handleStreamEvent now1 s e := by
  by_cases hc : e.conversationId = s.conversationId
  case neg =>
    rw [handleStreamEvent_other_conversation now1 s e hc,
        handleStreamEvent_other_conversation now2 s e hc]
  case pos =>
  cases hfi : s.messages.findIdx?
      (fun m => m.responseId == some e.responseId && m.role == Role.agent) with
  | some i =>
    obtain ⟨hi, hpi, hlt⟩ := findIdx?_some_spec _ s.messages i hfi
    have hil : s.messages[i].responseId = some e.responseId ∧
        s.messages[i].role = Role.agent := by
      constructor
      · have := (Bool.and_eq_true _ _).mp hpi |>.1
        simpa using this
      · have := (Bool.and_eq_true _ _).mp hpi |>.2
        simpa using this
    have hfin : s.messages[i].finished ≠ some true :=
      hunfin _ (s.messages.getElem_mem hi) hil.2 hil.1
    have hfields := applyEvent_status_fields (s.messages[i]) e hty
    have hfin1 : (applyEvent (s.messages[i]) e).finished ≠ some true := by
      rw [hfields.1]
      exact hfin
    have h1 : handleStreamEvent now1 s e =
        { s with messages := s.messages.set i (applyEvent (s.messages[i]) e) } := by
      rw [handleStreamEvent_found now1 s e i hc hfi hi]
      congr 1
      rw [if_neg (by simpa using hfin1)]
    rw [h1]
    have hset_len : i < (s.messages.set i (applyEvent (s.messages[i]) e)).length := by
      simpa using hi
    have hgset : (s.messages.set i (applyEvent (s.messages[i]) e))[i] =
        applyEvent (s.messages[i]) e := List.getElem_set_self hset_len
    have hfi2 : (s.messages.set i (applyEvent (s.messages[i]) e)).findIdx?
        (fun m => m.responseId == some e.responseId && m.role == Role.agent) = some i := by
      apply findIdx?_eq_some_of _ _ i hset_len
      · rw [hgset]
        simp [applyEvent_responseId, applyEvent_role, hil.1, hil.2]
      · intro j hj hji
        rw [List.getElem_set_ne (by omega) (by simpa using hj)]
        exact hlt j (by simpa using hj) hji
    have h2 := handleStreamEvent_found now2
      { s with messages := s.messages.set i (applyEvent (s.messages[i]) e) } e i hc hfi2 hset_len
    rw [h2]
    congr 1
    simp only [hgset, hfields.2]
    rw [if_neg (by simpa using hfin1)]
    rw [List.set_set]
  | none =>
    have hnon := List.findIdx?_eq_none_iff.mp hfi
    have hfieldsI := applyEvent_status_fields
      (insertionFor now1 (hasActiveAgent s.messages) e) e hty
    have hfinI : (applyEvent (insertionFor now1 (hasActiveAgent s.messages) e) e).finished ≠
        some true := by
      rw [hfieldsI.1]
      simp [insertionFor]
    have h1 : handleStreamEvent now1 s e =
        { s with messages :=
            s.messages ++ [applyEvent (insertionFor now1 (hasActiveAgent s.messages) e) e] } := by
      rw [handleStreamEvent_created now1 s e hc hfi]
      congr 1
      rw [if_neg (by simpa using hfinI)]
    rw [h1]
    have hP1 : ((applyEvent (insertionFor now1 (hasActiveAgent s.messages) e) e).responseId ==
        some e.responseId &&
        (applyEvent (insertionFor now1 (hasActiveAgent s.messages) e) e).role == Role.agent) = true := by
      simp [applyEvent_responseId, applyEvent_role, insertionFor]
    have hlen : s.messages.length <
        (s.messages ++ [applyEvent (insertionFor now1 (hasActiveAgent s.messages) e) e]).length := by
      simp
    have hglen : (s.messages ++ [applyEvent (insertionFor now1 (hasActiveAgent s.messages) e) e])[s.messages.length] =
        applyEvent (insertionFor now1 (hasActiveAgent s.messages) e) e :=
      List.getElem_concat_length _ _ _ rfl hlen
    have hfi2 : (s.messages ++ [applyEvent (insertionFor now1 (hasActiveAgent s.messages) e) e]).findIdx?
        (fun m => m.responseId == some e.responseId && m.role == Role.agent) =
        some s.messages.length := by
      apply findIdx?_eq_some_of _ _ s.messages.length hlen
      · rw [hglen]
        exact hP1
      · intro j hj hjlen
        rw [List.getElem_append_left hjlen]
        exact hnon _ (s.messages.getElem_mem hjlen)
    have h2 := handleStreamEvent_found now2
      { s with messages := s.messages ++ [applyEvent (insertionFor now1 (hasActiveAgent s.messages) e) e] }
      e s.messages.length hc hfi2 hlen
    rw [h2]
    congr 1
    simp only [hglen, hfieldsI.2]
    rw [if_neg (by simpa using hfinI)]
    rw [set_append_length]

/-- Witness for the amended C8 at a concrete input: a single unfinished
streaming agent message `A` and a `response-status (completed)` event for it. -/
theorem responseStatus_idempotent_witness :
    handleStreamEvent 1
      (handleStreamEvent 0 ⟨("c"), [msgStreamingShown ("A")]⟩
        { sampleEvent ("A") AgentStreamEventType.responseStatus with
          status := some AgentResponseStatus.completed })
      { sampleEvent ("A") AgentStreamEventType.responseStatus with
        status := some AgentResponseStatus.completed } =
      handleStreamEvent 0 ⟨("c"), [msgStreamingShown ("A")]⟩
        { sampleEvent ("A") AgentStreamEventType.responseStatus with
          status := some AgentResponseStatus.completed } :=
  responseStatus_idempotent_on_unfinished ⟨("c"), [msgStreamingShown ("A")]⟩
    { sampleEvent ("A") AgentStreamEventType.responseStatus with
      status := some AgentResponseStatus.completed } 0 1 rfl (by decide)

/-! ## Claim C10 — the user-facing stop operation -/

/-- C10: `stopStreaming` acts locally and immediately.  (1) If no agent
message is streaming, the state is unchanged and no stop command is sent.
(2) If the latest streaming agent message (index `i`, with nothing streaming
after it) has no response id — or the falsy empty-string id — the state is
likewise unchanged and nothing is sent; if it has response id `r`, the
operation sends the `stop-response` command for `r` with reason
`user-request` and, without waiting for any inbound `response-stop` event,
marks exactly that message `status = stopped`, `isStreaming = false`,
`finished = true` and runs the hidden-message visibility release. -/
theorem stopStreaming_spec (s : AppState) :
    ((∀ m ∈ s.messages, ¬(m.role = Role.agent ∧ m.isStreaming = some true)) →
      stopStreaming s = (s, none)) ∧
    (∀ i (hi : i < s.messages.length),
      (s.messages[i].role = Role.agent ∧ s.messages[i].isStreaming = some true) →
      (∀ j (hj : j < s.messages.length), i < j →
        ¬(s.messages[j].role = Role.agent ∧ s.messages[j].isStreaming = some true)) →
      ((s.messages[i].responseId = none ∨ s.messages[i].responseId = some ("") →
          stopStreaming s = (s, none)) ∧
        (∀ r, s.messages[i].responseId = some r → r ≠ ("") →
          (s.messages.map (fun m => m.id)).Nodup →
          stopStreaming s =
            ({ s with messages := releaseQueuedAgentResponses
                          (s.messages.set i
                            { s.messages[i] with
                              status := some AgentResponseStatus.stopped
                              isStreaming := some false
                              finished := some true }) },
              some { conversationId := s.conversationId,
                     responseId := r, reason := ("user-request") })))) := by
  constructor
  · intro hnone
    have hq : s.messages.reverse.find?
        (fun m => m.role == Role.agent && m.isStreaming == some true) = none := by
      apply List.find?_eq_none.mpr
      intro x hx
      have := hnone x (List.mem_reverse.mp hx)
      simpa using this
    simp only [stopStreaming, hq]
  · intro i hi hstream hlast
    have hqi : ((s.messages[i]).role == Role.agent &&
        (s.messages[i]).isStreaming == some true) = true := by
      simp [hstream.1, hstream.2]
    have hfind : s.messages.reverse.find?
        (fun m => m.role == Role.agent && m.isStreaming == some true) =
        some (s.messages[i]) := by
      apply find?_reverse_eq_some_of _ s.messages i hi hqi
      intro j hj hij
      have := hlast j hj hij
      simpa using this
    constructor
    · intro hrid
      rcases hrid with hrid | hrid
      · simp only [stopStreaming, hfind, hrid]
      · simp only [stopStreaming, hfind, hrid]
        rfl
    · intro r hrid hr hnd
      have hids : ∀ j (hj : j < s.messages.length), j ≠ i →
          ¬(s.messages[j].id = s.messages[i].id) := by
        intro j hj hne heq
        have hpw := List.pairwise_iff_getElem.mp hnd
        rcases Nat.lt_or_ge j i with hcase | hcase
        · have := hpw j i (by simpa using hj) (by simpa using hi) hcase
          simp only [List.getElem_map] at this
          exact this heq
        · have hij : i < j := by omega
          have := hpw i j (by simpa using hi) (by simpa using hj) hij
          simp only [List.getElem_map] at this
          exact this heq.symm
      have hidx : s.messages.findIdx? (fun m => m.id == (s.messages[i]).id) = some i := by
        apply findIdx?_eq_some_of _ _ i hi
        · simp
        · intro j hj hji
          have := hids j hj (by omega)
          simpa using this
      have hget : s.messages[i]? = some (s.messages[i]) := getElem?_some_of_lt _ _ hi
      simp only [stopStreaming, hfind, hrid]
      rw [if_neg (by simpa using hr)]
      simp only [hidx, hget]
      rw [hrid]

/-- Witness for C10 at a concrete input: a user message followed by a
streaming agent message with response id `"A"`. -/
theorem stopStreaming_spec_witness :
    stopStreaming ⟨("c"), [msgUser ("u"), msgStreamingShown ("A")]⟩ =
      ({ conversationId := ("c"),
         messages := releaseQueuedAgentResponses
           ([msgUser ("u"), msgStreamingShown ("A")].set 1
             { msgStreamingShown ("A") with
               status := some AgentResponseStatus.stopped
               isStreaming := some false
               finished := some true }) },
        some { conversationId := ("c"), responseId := ("A"),
               reason := ("user-request") }) := by
  have h := (stopStreaming_spec ⟨("c"), [msgUser ("u"), msgStreamingShown ("A")]⟩).2
    1 (by decide) (by decide) (by decide)
  have h2 := h.2 ("A") (by decide) (by decide) (by decide)
  exact h2

/-- Witness for the amended C6 at a concrete payload carrying the recognized
type `"response-start"`. -/
theorem dispatch_characterization_witness :
    dispatch (some { typeField := some (FieldValue.str ("response-start")) }) =
      some { typeField := some (FieldValue.str ("response-start")) } :=
  (dispatch_characterization
      (some { typeField := some (FieldValue.str ("response-start")) })).2
    { typeField := some (FieldValue.str ("response-start")) } ("response-start")
    rfl rfl (by decide)

/-! ## Claim C2 — the visibility queue policy -/

/-- C2: (1) while an unfinished agent message exists, a newly created agent
message starts with `visible = false`; (2) the release scan that runs on
every finish transition: when the earliest hidden agent message sits at
index `h` and the agent message nearest before it is absent or finished, it
is flipped to visible (and nothing else changes); (3) concretely, for
interleaved responses A then B, B starts hidden and becomes visible once A
finishes. -/
theorem visibility_queue_policy :
    (∀ (now : Nat) (l : List ConversationMessage) (e : AgentStreamEvent),
      (∃ m ∈ l, m.role = Role.agent ∧ m.finished ≠ some true) →
      (∀ m ∈ l, ¬(m.responseId = some e.responseId ∧ m.role = Role.agent)) →
      ∃ ins, (ensureAgentMessage now l e).1 = l ++ [ins] ∧ ins.visible = false ∧
        ins.finished = some false ∧ ins.role = Role.agent) ∧
    (∀ (l : List ConversationMessage) (h : Nat) (hh : h < l.length),
      l[h].role = Role.agent → l[h].visible = false →
      (∀ k (hk : k < l.length), k < h →
        ¬(l[k].role = Role.agent ∧ l[k].visible = false)) →
      ((∀ k (hk : k < l.length), k < h → l[k].role ≠ Role.agent) ∨
        (∃ p, ∃ hp : p < l.length, p < h ∧ l[p].role = Role.agent ∧
          l[p].finished = some true ∧
          (∀ k (hk : k < l.length), p < k → k < h → l[k].role ≠ Role.agent))) →
      releaseQueuedAgentResponses l = l.set h { l[h] with visible := true }) ∧
    (((runEvents ⟨("c"), []⟩
        [(0, sampleEvent ("A") AgentStreamEventType.responseStart),
         (1, sampleEvent ("B") AgentStreamEventType.responseStart)]).messages.map
      (fun m => (m.responseId, m.visible)) =
      [(some ("A"), true), (some ("B"), false)]) ∧
     ((runEvents ⟨("c"), []⟩
        [(0, sampleEvent ("A") AgentStreamEventType.responseStart),
         (1, sampleEvent ("B") AgentStreamEventType.responseStart),
         (2, sampleEvent ("A") AgentStreamEventType.responseEnd)]).messages.map
      (fun m => (m.responseId, m.visible)) =
      [(some ("A"), true), (some ("B"), true)])) := by
  refine ⟨?_, ?_, by decide, by decide⟩
  · intro now l e hact hnew
    have hfi : l.findIdx?
        (fun m => m.responseId == some e.responseId && m.role == Role.agent) = none := by
      apply List.findIdx?_eq_none_iff.mpr
      intro x hx
      have := hnew x hx
      simpa using this
    have hact' : hasActiveAgent l = true := by
      apply List.any_eq_true.mpr
      obtain ⟨m, hm, hrole, hfin⟩ := hact
      exact ⟨m, hm, by simp [hrole, hfin]⟩
    refine ⟨insertionFor now true e, ?_, ?_, rfl, rfl⟩
    · simp only [ensureAgentMessage, hfi, hact']
    · rfl
  · intro l h hh hrole hvis hfirst hprev
    have hfi : l.findIdx? (fun m => m.role == Role.agent && !m.visible) = some h := by
      apply findIdx?_eq_some_of _ _ h hh
      · simp [hrole, hvis]
      · intro j hj hjh
        have := hfirst j hj hjh
        rcases hcase : l[j].role == Role.agent with _ | _
        · simp [hcase]
        · have hr : l[j].role = Role.agent := by simpa using hcase
          have : ¬(l[j].visible = false) := fun hv => this ⟨hr, hv⟩
          simp [hcase]
          simpa using this
    have hget : l[h]? = some (l[h]) := getElem?_some_of_lt _ _ hh
    rcases hprev with hnoag | ⟨p, hp, hph, hprole, hpfin, hplast⟩
    · have hfindnone : ((l.take h).reverse).find? (fun m => m.role == Role.agent) = none := by
        apply find?_reverse_eq_none
        intro x hx
        obtain ⟨k, hk, hkx⟩ := List.mem_iff_getElem.mp hx
        have hk' : k < h := by
          have := hk
          simp [List.length_take] at this
          omega
        have hkl : k < l.length := by omega
        have : (l.take h)[k] = l[k] := List.getElem_take l
        rw [this] at hkx
        subst hkx
        have := hnoag k hkl hk'
        simpa using this
      simp only [releaseQueuedAgentResponses, hfi, hfindnone, hget]
    · have hlen : p < (l.take h).length := by
        simp [List.length_take]
        omega
      have hptake : (l.take h)[p] = l[p] := List.getElem_take l
      have hfindsome : ((l.take h).reverse).find? (fun m => m.role == Role.agent) =
          some ((l.take h)[p]) := by
        apply find?_reverse_eq_some_of _ _ p hlen
        · rw [hptake]
          simp [hprole]
        · intro j hj hpj
          have hjh : j < h := by
            have := hj
            simp [List.length_take] at this
            omega
          have hjl : j < l.length := by omega
          have : (l.take h)[j] = l[j] := List.getElem_take l
          rw [this]
          have := hplast j hjl hpj hjh
          simpa using this
      rw [hptake] at hfindsome
      simp only [releaseQueuedAgentResponses, hfi, hfindsome, hget]
      rw [if_pos (by simp [hpfin])]

/-- Witness for C2 at concrete inputs: a `response-start` for `B` arriving
while `A` streams creates `B` hidden, and the release flips the hidden `B`
once the message before it is finished. -/
theorem visibility_queue_policy_witness :
    (∃ ins, (ensureAgentMessage 5 [msgStreamingShown ("A")]
        (sampleEvent ("B") AgentStreamEventType.responseStart)).1 =
        [msgStreamingShown ("A")] ++ [ins] ∧ ins.visible = false ∧
        ins.finished = some false ∧ ins.role = Role.agent) ∧
    releaseQueuedAgentResponses [msgDoneShown ("A"), msgPendingHidden ("B")] =
      [msgDoneShown ("A"), msgPendingHidden ("B")].set 1
        { msgPendingHidden ("B") with visible := true } := by
  constructor
  · exact visibility_queue_policy.1 5 [msgStreamingShown ("A")]
      (sampleEvent ("B") AgentStreamEventType.responseStart)
      ⟨msgStreamingShown ("A"), by decide, by decide, by decide⟩
      (by decide)
  · exact visibility_queue_policy.2.1 [msgDoneShown ("A"), msgPendingHidden ("B")]
      1 (by decide) (by decide) (by decide) (by decide)
      (Or.inr ⟨0, by decide, by decide, by decide, by decide, by decide⟩)

/-! ## Claim C1 — at most one visible unfinished agent message

The proof goes through the strengthened invariant `StrongInv`: every agent
message preceding a visible agent message is finished.  It is preserved by
every event step and implies the claimed bound. -/

theorem strongInv_set_compat (l : List ConversationMessage) (i : Nat)
    (hi : i < l.length) (m' : ConversationMessage)
    (hrole : m'.role = l[i].role) (hvis : m'.visible = l[i].visible)
    (hfin : l[i].finished = some true → m'.finished = some true)
    (hp : StrongInv l) : StrongInv (l.set i m') := by
  rw [StrongInv, List.pairwise_iff_getElem] at *
  intro a b ha hb hab
  have hla : a < l.length := by simpa using ha
  have hlb : b < l.length := by simpa using hb
  have hga : (l.set i m')[a] = if i = a then m' else l[a] := by
    by_cases hia : i = a
    · rw [if_pos hia]
      subst hia
      exact List.getElem_set_self ha
    · rw [if_neg hia]
      exact List.getElem_set_ne hia (by simpa using hla)
  have hgb : (l.set i m')[b] = if i = b then m' else l[b] := by
    by_cases hib : i = b
    · rw [if_pos hib]
      subst hib
      exact List.getElem_set_self hb
    · rw [if_neg hib]
      exact List.getElem_set_ne hib (by simpa using hlb)
  rw [hga, hgb]
  by_cases hib : i = b
  · have hia : ¬ i = a := by omega
    rw [if_pos hib, if_neg hia]
    intro hbrole hbvis harole
    have e : l[i] = l[b] := by congr
    refine hp a b hla hlb hab ?_ ?_ harole
    · rw [← e, ← hrole]
      exact hbrole
    · rw [← e, ← hvis]
      exact hbvis
  · rw [if_neg hib]
    by_cases hia : i = a
    · rw [if_pos hia]
      intro hbrole hbvis harole
      have e : l[i] = l[a] := by congr
      have hfin' := hp a b hla hlb hab hbrole hbvis (by rw [← e, ← hrole]; exact harole)
      apply hfin
      rw [e]
      exact hfin'
    · rw [if_neg hia]
      exact hp a b hla hlb hab

theorem strongInv_append (l : List ConversationMessage)
    (m : ConversationMessage) (hp : StrongInv l)
    (hm : m.visible = true → ∀ a ∈ l, a.role = Role.agent →
      a.finished = some true) :
    StrongInv (l ++ [m]) := by
  rw [StrongInv, List.pairwise_append]
  refine ⟨hp, List.pairwise_singleton _ _, ?_⟩
  intro a ha b hb
  have hb' : b = m := by simpa using hb
  subst hb'
  intro hbrole hbvis harole
  exact hm hbvis a ha harole

theorem strongInv_release (l : List ConversationMessage) (hp : StrongInv l) :
    StrongInv (releaseQueuedAgentResponses l) := by
  cases hfi : l.findIdx? (fun m => m.role == Role.agent && !m.visible) with
  | none => simpa only [releaseQueuedAgentResponses, hfi] using hp
  | some h =>
    obtain ⟨hh, hph, hlt⟩ := findIdx?_some_spec _ l h hfi
    have hget := getElem?_some_of_lt l h hh
    have hrole : l[h].role = Role.agent := by
      have := ((Bool.and_eq_true _ _).mp hph).1
      simpa using this
    have hbef : ∀ k (hk : k < l.length), k < h → l[k].role = Role.agent →
        l[k].visible = true := by
      intro k hk hkh hkrole
      have hfalse := hlt k hk hkh
      simp [hkrole] at hfalse
      exact hfalse
    have hpw := List.pairwise_iff_getElem.mp hp
    have main : (∀ k (hk : k < l.length), k < h → l[k].role = Role.agent →
        l[k].finished = some true) →
        StrongInv (l.set h { l[h] with visible := true }) := by
      intro hstar
      rw [StrongInv, List.pairwise_iff_getElem]
      intro a b ha hb hab
      have hla : a < l.length := by simpa using ha
      have hlb : b < l.length := by simpa using hb
      have hga : (l.set h { l[h] with visible := true })[a] =
          if h = a then { l[h] with visible := true } else l[a] := by
        by_cases hia : h = a
        · rw [if_pos hia]
          subst hia
          exact List.getElem_set_self ha
        · rw [if_neg hia]
          exact List.getElem_set_ne hia (by simpa using hla)
      have hgb : (l.set h { l[h] with visible := true })[b] =
          if h = b then { l[h] with visible := true } else l[b] := by
        by_cases hib : h = b
        · rw [if_pos hib]
          subst hib
          exact List.getElem_set_self hb
        · rw [if_neg hib]
          exact List.getElem_set_ne hib (by simpa using hlb)
      rw [hga, hgb]
      by_cases hib : h = b
      · have hia : ¬ h = a := by omega
        rw [if_pos hib, if_neg hia]
        intro hbrole hbvis harole
        exact hstar a hla (by omega) harole
      · rw [if_neg hib]
        by_cases hia : h = a
        · rw [if_pos hia]
          intro hbrole hbvis harole
          subst hia
          exact hpw h b hla hlb hab hbrole hbvis harole
        · rw [if_neg hia]
          exact hpw a b hla hlb hab
    cases hpa : ((l.take h).reverse).find? (fun m => m.role == Role.agent) with
    | none =>
      have hnoag : ∀ k (hk : k < l.length), k < h → l[k].role ≠ Role.agent := by
        intro k hk hkh hkrole
        have hmem : l[k] ∈ (l.take h).reverse := by
          rw [List.mem_reverse]
          apply List.mem_iff_getElem.mpr
          refine ⟨k, by simp [List.length_take]; omega, by rw [List.getElem_take l]⟩
        have := List.find?_eq_none.mp hpa _ hmem
        simp [hkrole] at this
      simp only [releaseQueuedAgentResponses, hfi, hpa, hget]
      exact main (fun k hk hkh hkrole => absurd hkrole (hnoag k hk hkh))
    | some p =>
      by_cases hf : (p.finished == some true) = true
      · obtain ⟨kp, hkp, hkpe, hqp, hlast⟩ := find?_reverse_spec _ (l.take h) p hpa
        have hkph : kp < h := by
          have := hkp
          simp [List.length_take] at this
          omega
        have hkpl : kp < l.length := by omega
        have hlkp : l[kp] = p := by
          rw [← hkpe]
          exact (List.getElem_take l).symm
        have hpfin : p.finished = some true := by simpa using hf
        have hprole : p.role = Role.agent := by simpa using hqp
        have hstar : ∀ k (hk : k < l.length), k < h → l[k].role = Role.agent →
            l[k].finished = some true := by
          intro k hk hkh hkrole
          rcases Nat.lt_trichotomy k kp with hcase | hcase | hcase
          · have hkpvis : l[kp].visible = true :=
              hbef kp hkpl hkph (by rw [hlkp]; exact hprole)
            exact hpw k kp hk hkpl hcase (by rw [hlkp]; exact hprole) hkpvis hkrole
          · subst hcase
            rw [hlkp]
            exact hpfin
          · exfalso
            have hktake : k < (l.take h).length := by
              simp [List.length_take]
              omega
            have := hlast k hktake hcase
            rw [List.getElem_take l] at this
            simp [hkrole] at this
        simp only [releaseQueuedAgentResponses, hfi, hpa, hget, if_pos hf]
        exact main hstar
      · simp only [releaseQueuedAgentResponses, hfi, hpa, hget, if_neg hf]
        exact hp

theorem strongInv_step (now : Nat) (s : AppState) (e : AgentStreamEvent)
    (hp : StrongInv s.messages) :
    StrongInv (handleStreamEvent now s e).messages := by
  by_cases hc : e.conversationId = s.conversationId
  case neg =>
    rw [handleStreamEvent_other_conversation now s e hc]
    exact hp
  case pos =>
  cases hfi : s.messages.findIdx?
      (fun m => m.responseId == some e.responseId && m.role == Role.agent) with
  | some i =>
    obtain ⟨hi, hpi, hlt⟩ := findIdx?_some_spec _ _ i hfi
    rw [handleStreamEvent_found now s e i hc hfi hi]
    have hset : StrongInv (s.messages.set i (applyEvent (s.messages[i]) e)) :=
      strongInv_set_compat _ i hi _ (applyEvent_role _ _) (applyEvent_visible _ _)
        (applyEvent_finished_mono _ _) hp
    by_cases hfin : ((applyEvent (s.messages[i]) e).finished == some true) = true
    · show StrongInv (if _ then _ else _)
      rw [if_pos hfin]
      exact strongInv_release _ hset
    · show StrongInv (if _ then _ else _)
      rw [if_neg hfin]
      exact hset
  | none =>
    rw [handleStreamEvent_created now s e hc hfi]
    have happ : StrongInv
        (s.messages ++ [applyEvent (insertionFor now (hasActiveAgent s.messages) e) e]) := by
      apply strongInv_append _ _ hp
      intro hvis a ha harole
      rw [applyEvent_visible] at hvis
      have hact : hasActiveAgent s.messages = false := by
        simpa [insertionFor] using hvis
      have := (List.any_eq_false.mp hact) a ha
      simp [harole] at this
      exact this
    by_cases hfin : ((applyEvent (insertionFor now (hasActiveAgent s.messages) e) e).finished
        == some true) = true
    · show StrongInv (if _ then _ else _)
      rw [if_pos hfin]
      exact strongInv_release _ happ
    · show StrongInv (if _ then _ else _)
      rw [if_neg hfin]
      exact happ

/-- C1: for every sequence of dispatched stream events processed from a fresh
conversation, after each event at most one agent message is simultaneously
visible and unfinished — the shown streaming slot is singular.  (Quantifying
over all event lists covers every prefix, i.e. the state after each event.) -/
theorem at_most_one_visible_unfinished (cid : String)
    (es : List (Nat × AgentStreamEvent)) :
    ((runEvents ⟨cid, []⟩ es).messages.countP activeShown) ≤ 1 := by
  have hinv : StrongInv ((runEvents ⟨cid, []⟩ es).messages) := by
    rw [runEvents]
    exact foldl_invariant (fun acc p => handleStreamEvent p.1 acc p.2)
      (fun st => StrongInv st.messages)
      (fun st p hp => strongInv_step p.1 st p.2 hp) es ⟨cid, []⟩
      (List.Pairwise.nil)
  apply countP_le_one_of_pairwise activeShown visRel _ _ hinv
  intro a b hrel hqa hqb
  simp only [activeShown, Bool.and_eq_true, beq_iff_eq] at hqa hqb
  obtain ⟨⟨hqa1, hqa2⟩, hqa3⟩ := hqa
  obtain ⟨⟨hqb1, hqb2⟩, hqb3⟩ := hqb
  have := hrel hqb1 hqb2 hqa1
  rw [hqa3] at this
  simp at this

/-! ## Claim C3 — start, tokens, end -/

theorem applyEvent_finished_nonterminal (t : ConversationMessage)
    (e : AgentStreamEvent)
    (hty : e.type = AgentStreamEventType.responseStart ∨
      e.type = AgentStreamEventType.responseToken ∨
      e.type = AgentStreamEventType.responseStatus ∨
      e.type = AgentStreamEventType.responseCelebration) :
    (applyEvent t e).finished = t.finished := by
  rcases e with ⟨cid, rid, ty, st, tok, toks, cont⟩
  simp only at hty
  rcases hty with h | h | h | h <;> subst h <;> rfl

theorem applyEvent_token_content (t : ConversationMessage)
    (e : AgentStreamEvent) (hty : e.type = AgentStreamEventType.responseToken) :
    (applyEvent t e).content = t.content ++ e.token.getD ("") := by
  rcases e with ⟨cid, rid, ty, st, tok, toks, cont⟩
  simp only at hty
  subst hty
  rfl

theorem applyEvent_start_content (t : ConversationMessage)
    (e : AgentStreamEvent) (hty : e.type = AgentStreamEventType.responseStart) :
    (applyEvent t e).content = t.content := by
  rcases e with ⟨cid, rid, ty, st, tok, toks, cont⟩
  simp only at hty
  subst hty
  rfl

theorem applyEvent_end_fields (t : ConversationMessage)
    (e : AgentStreamEvent) (hty : e.type = AgentStreamEventType.responseEnd) :
    (applyEvent t e).content = e.content.getD t.content ∧
    (applyEvent t e).finished = some true ∧
    (applyEvent t e).isStreaming = some false := by
  rcases e with ⟨cid, rid, ty, st, tok, toks, cont⟩
  simp only at hty
  subst hty
  exact ⟨rfl, rfl, rfl⟩

theorem findIdx?_match_append (l : List ConversationMessage)
    (M : ConversationMessage) (r : String)
    (hl : ∀ m ∈ l, ¬(m.responseId = some r ∧ m.role = Role.agent))
    (hrid : M.responseId = some r) (hrole : M.role = Role.agent) :
    (l ++ [M]).findIdx?
      (fun m => m.responseId == some r && m.role == Role.agent) = some l.length := by
  apply findIdx?_eq_some_of _ _ l.length (by simp)
  · rw [List.getElem_concat_length _ _ _ rfl (by simp)]
    simp [hrid, hrole]
  · intro j hj hjlen
    have hjl : j < l.length := by simpa using hjlen
    rw [List.getElem_append_left hjl]
    have hnm := hl _ (l.getElem_mem hjl)
    have : ¬((l[j].responseId == some r && l[j].role == Role.agent) = true) := by
      intro hx
      simp only [Bool.and_eq_true, beq_iff_eq] at hx
      exact hnm ⟨hx.1, hx.2⟩
    simpa using this

theorem find?_append_last {α : Type} (l : List α) (M : α) (q : α → Bool)
    (hl : ∀ x ∈ l, q x = false) (hM : q M = true) :
    (l ++ [M]).find? q = some M := by
  induction l with
  | nil => simp [List.find?_cons_of_pos _ hM]
  | cons a t ih =>
    have hqa := hl a (by simp)
    rw [List.cons_append, List.find?_cons_of_neg _ (by simp [hqa])]
    exact ih (fun x hx => hl x (by simp [hx]))

theorem find?_map_set_flip (q : ConversationMessage → Bool)
    (f : ConversationMessage → Option Bool × Option Bool × String)
    (hq : ∀ m, q { m with visible := true } = q m)
    (hf : ∀ m, f { m with visible := true } = f m) :
    ∀ (l : List ConversationMessage) (i : Nat) (hi : i < l.length),
      ((l.set i { l[i] with visible := true }).find? q).map f = (l.find? q).map f := by
  intro l
  induction l with
  | nil => intro i hi; simp at hi
  | cons a t ih =>
    intro i hi
    cases i with
    | zero =>
      show ((({ a with visible := true }) :: t).find? q).map f = ((a :: t).find? q).map f
      by_cases hqa : q a = true
      · rw [List.find?_cons_of_pos _ (by rw [hq]; exact hqa),
            List.find?_cons_of_pos _ hqa]
        simp [hf]
      · rw [List.find?_cons_of_neg _ (by rw [hq]; simpa using hqa),
            List.find?_cons_of_neg _ (by simpa using hqa)]
    | succ j =>
      have hj : j < t.length := by simpa using hi
      show ((a :: t.set j { t[j] with visible := true }).find? q).map f =
        ((a :: t).find? q).map f
      by_cases hqa : q a = true
      · rw [List.find?_cons_of_pos _ hqa, List.find?_cons_of_pos _ hqa]
      · rw [List.find?_cons_of_neg _ (by simpa using hqa),
            List.find?_cons_of_neg _ (by simpa using hqa)]
        exact ih j hj

theorem release_shape (l : List ConversationMessage) :
    releaseQueuedAgentResponses l = l ∨
    ∃ i, ∃ hi : i < l.length,
      releaseQueuedAgentResponses l = l.set i { l[i] with visible := true } := by
  cases hfi : l.findIdx? (fun m => m.role == Role.agent && !m.visible) with
  | none =>
    left
    simp only [releaseQueuedAgentResponses, hfi]
  | some h =>
    obtain ⟨hh, hph, hlt⟩ := findIdx?_some_spec _ l h hfi
    have hget := getElem?_some_of_lt l h hh
    cases hpa : ((l.take h).reverse).find? (fun m => m.role == Role.agent) with
    | none =>
      right
      exact ⟨h, hh, by simp only [releaseQueuedAgentResponses, hfi, hpa, hget]⟩
    | some p =>
      by_cases hf : (p.finished == some true) = true
      · right
        refine ⟨h, hh, ?_⟩
        simp only [releaseQueuedAgentResponses, hfi, hpa, hget, if_pos hf]
      · left
        simp only [releaseQueuedAgentResponses, hfi, hpa, hget, if_neg hf]

theorem find?_map_release (q : ConversationMessage → Bool)
    (f : ConversationMessage → Option Bool × Option Bool × String)
    (hq : ∀ m, q { m with visible := true } = q m)
    (hf : ∀ m, f { m with visible := true } = f m)
    (l : List ConversationMessage) :
    ((releaseQueuedAgentResponses l).find? q).map f = (l.find? q).map f := by
  rcases release_shape l with h | ⟨i, hi, h⟩
  · rw [h]
  · rw [h]
    exact find?_map_set_flip q f hq hf l i hi

theorem runEvents_tokens (conv : String) (r : String) :
    ∀ (toks : List (Nat × AgentStreamEvent)) (l : List ConversationMessage)
      (M : ConversationMessage),
      (∀ p ∈ toks, p.2.type = AgentStreamEventType.responseToken ∧
        p.2.conversationId = conv ∧ p.2.responseId = r) →
      (∀ m ∈ l, ¬(m.responseId = some r ∧ m.role = Role.agent)) →
      M.responseId = some r → M.role = Role.agent → M.finished = some false →
      runEvents ⟨conv, l ++ [M]⟩ toks =
        ⟨conv, l ++ [toks.foldl (fun acc p => applyEvent acc p.2) M]⟩ ∧
      (toks.foldl (fun acc p => applyEvent acc p.2) M).content =
        (toks.map (fun p => p.2.token.getD (""))).foldl
          (fun acc tk => acc ++ tk) M.content ∧
      (toks.foldl (fun acc p => applyEvent acc p.2) M).responseId = some r ∧
      (toks.foldl (fun acc p => applyEvent acc p.2) M).role = Role.agent ∧
      (toks.foldl (fun acc p => applyEvent acc p.2) M).finished = some false := by
  intro toks
  induction toks with
  | nil =>
    intro l M h1 h2 h3 h4 h5
    exact ⟨rfl, rfl, h3, h4, h5⟩
  | cons p t ih =>
    intro l M hall hl hrid hrole hfin
    obtain ⟨hty, hcv, hrv⟩ := hall p (by simp)
    have hfi : (l ++ [M]).findIdx?
        (fun m => m.responseId == some p.2.responseId && m.role == Role.agent) =
        some l.length := by
      rw [hrv]
      exact findIdx?_match_append l M r hl hrid hrole
    have hlen : l.length < (l ++ [M]).length := by simp
    have hM : (l ++ [M])[l.length] = M :=
      List.getElem_concat_length _ _ _ rfl hlen
    have hfinpres : (applyEvent M p.2).finished = M.finished :=
      applyEvent_finished_nonterminal M p.2 (Or.inr (Or.inl hty))
    have hstep : handleStreamEvent p.1 ⟨conv, l ++ [M]⟩ p.2 =
        ⟨conv, l ++ [applyEvent M p.2]⟩ := by
      rw [handleStreamEvent_found p.1 ⟨conv, l ++ [M]⟩ p.2 l.length hcv hfi hlen]
      simp only [hM]
      rw [if_neg (by rw [hfinpres, hfin]; simp)]
      rw [set_append_length]
    have ihres := ih l (applyEvent M p.2)
      (fun q hq => hall q (by simp [hq]))
      hl
      (by rw [applyEvent_responseId]; exact hrid)
      (by rw [applyEvent_role]; exact hrole)
      (by rw [hfinpres]; exact hfin)
    have hcontent : (applyEvent M p.2).content = M.content ++ p.2.token.getD ("") :=
      applyEvent_token_content M p.2 hty
    refine ⟨?_, ?_, ihres.2.2.1, ihres.2.2.2.1, ihres.2.2.2.2⟩
    · show runEvents (handleStreamEvent p.1 ⟨conv, l ++ [M]⟩ p.2) t = _
      rw [hstep]
      exact ihres.1
    · show (t.foldl (fun acc q => applyEvent acc q.2) (applyEvent M p.2)).content = _
      rw [List.map_cons, List.foldl_cons, ← hcontent]
      exact ihres.2.1

/-- C3 (counterexample): the claim quantifies over every
`response-start · response-token* · response-end` sequence, but a
`response-start` may itself carry a `content` field, which the code uses to
initialize the message content.  With start content `"X"`, no tokens, and an
end event without content, the resulting content is `"X"`, not the empty
concatenation of the (zero) token fields required by the claim. -/
theorem lifecycle_content_counterexample :
    ((runEvents ⟨("c"), []⟩
        [(0, { sampleEvent ("A") AgentStreamEventType.responseStart with
               content := some ("X") }),
         (1, sampleEvent ("A") AgentStreamEventType.responseEnd)]).messages.map
      (fun m => m.content)) = [("X")] ∧ ("X") ≠ ("") := by
  exact ⟨by decide, by decide⟩

/-- C3 (amended): for every `response-start` → `response-token`* →
`response-end` sequence for one response id in the active conversation
(landing in a store with no message for that id yet), the resulting message
has `finished = true`, `isStreaming = false`, and content equal to the end
event's `content` field if present, else the start event's `content` field
(empty if absent) followed by the concatenation of the token fields in
arrival order.  The claim's original wording omitted the start event's
content contribution. -/
theorem lifecycle_content (s : AppState) (startE endE : AgentStreamEvent)
    (toks : List (Nat × AgentStreamEvent)) (n0 n1 : Nat)
    (hsty : startE.type = AgentStreamEventType.responseStart)
    (hscv : startE.conversationId = s.conversationId)
    (hety : endE.type = AgentStreamEventType.responseEnd)
    (hecv : endE.conversationId = s.conversationId)
    (heid : endE.responseId = startE.responseId)
    (htoks : ∀ p ∈ toks, p.2.type = AgentStreamEventType.responseToken ∧
      p.2.conversationId = s.conversationId ∧ p.2.responseId = startE.responseId)
    (hnew : ∀ m ∈ s.messages,
      ¬(m.responseId = some startE.responseId ∧ m.role = Role.agent)) :
    (((runEvents s ((n0, startE) :: (toks ++ [(n1, endE)]))).messages.find?
        (fun m => m.responseId == some startE.responseId && m.role == Role.agent)).map
      (fun m => (m.finished, m.isStreaming, m.content))) =
      some (some true, some false,
        endE.content.getD
          ((toks.map (fun p => p.2.token.getD (""))).foldl (fun acc tk => acc ++ tk)
            (startE.content.getD ("")))) := by
  set M0 := applyEvent (insertionFor n0 (hasActiveAgent s.messages) startE) startE with hM0
  have hM0rid : M0.responseId = some startE.responseId := by
    rw [hM0, applyEvent_responseId]
    rfl
  have hM0role : M0.role = Role.agent := by
    rw [hM0, applyEvent_role]
    rfl
  have hM0fin : M0.finished = some false := by
    rw [hM0, applyEvent_finished_nonterminal _ _ (Or.inl hsty)]
    rfl
  have hM0content : M0.content = startE.content.getD ("") := by
    rw [hM0, applyEvent_start_content _ _ hsty]
    rfl
  have hfi0 : s.messages.findIdx?
      (fun m => m.responseId == some startE.responseId && m.role == Role.agent) =
      none := by
    apply List.findIdx?_eq_none_iff.mpr
    intro x hx
    have := hnew x hx
    simpa using this
  have hstart : handleStreamEvent n0 s startE =
      { s with messages := s.messages ++ [M0] } := by
    rw [handleStreamEvent_created n0 s startE hscv hfi0]
    congr 1
    rw [if_neg (by rw [← hM0, hM0fin]; simp)]
  have hrun0 : runEvents s ((n0, startE) :: (toks ++ [(n1, endE)])) =
      runEvents ⟨s.conversationId, s.messages ++ [M0]⟩ (toks ++ [(n1, endE)]) := by
    show runEvents (handleStreamEvent n0 s startE) (toks ++ [(n1, endE)]) = _
    rw [hstart]
  obtain ⟨htokrun, htokcontent, htokrid, htokrole, htokfin⟩ :=
    runEvents_tokens s.conversationId startE.responseId toks s.messages M0
      htoks hnew hM0rid hM0role hM0fin
  set Mt := toks.foldl (fun acc p => applyEvent acc p.2) M0 with hMt
  have hfit : (s.messages ++ [Mt]).findIdx?
      (fun m => m.responseId == some endE.responseId && m.role == Role.agent) =
      some s.messages.length := by
    rw [heid]
    exact findIdx?_match_append s.messages Mt startE.responseId hnew htokrid htokrole
  have hlent : s.messages.length < (s.messages ++ [Mt]).length := by simp
  have hMtget : (s.messages ++ [Mt])[s.messages.length] = Mt :=
    List.getElem_concat_length _ _ _ rfl hlent
  have hendfields := applyEvent_end_fields Mt endE hety
  have hendstep : handleStreamEvent n1 ⟨s.conversationId, s.messages ++ [Mt]⟩ endE =
      ⟨s.conversationId,
        releaseQueuedAgentResponses (s.messages ++ [applyEvent Mt endE])⟩ := by
    rw [handleStreamEvent_found n1 ⟨s.conversationId, s.messages ++ [Mt]⟩ endE
      s.messages.length hecv hfit hlent]
    simp only [hMtget]
    rw [if_pos (by rw [hendfields.2.1]; simp)]
    rw [set_append_length]
  have hrunall : runEvents s ((n0, startE) :: (toks ++ [(n1, endE)])) =
      ⟨s.conversationId,
        releaseQueuedAgentResponses (s.messages ++ [applyEvent Mt endE])⟩ := by
    rw [hrun0]
    rw [runEvents, List.foldl_append]
    show handleStreamEvent n1 (runEvents ⟨s.conversationId, s.messages ++ [M0]⟩ toks) endE = _
    rw [htokrun]
    exact hendstep
  rw [hrunall]
  have hqflip : ∀ m : ConversationMessage,
      ((fun m => m.responseId == some startE.responseId && m.role == Role.agent)
        { m with visible := true }) =
      ((fun m => m.responseId == some startE.responseId && m.role == Role.agent) m) :=
    fun m => rfl
  have hfflip : ∀ m : ConversationMessage,
      ((fun m => (m.finished, m.isStreaming, m.content)) { m with visible := true }) =
      ((fun m => (m.finished, m.isStreaming, m.content)) m) :=
    fun m => rfl
  rw [find?_map_release _ _ hqflip hfflip]
  have hfindlast : (s.messages ++ [applyEvent Mt endE]).find?
      (fun m => m.responseId == some startE.responseId && m.role == Role.agent) =
      some (applyEvent Mt endE) := by
    apply find?_append_last
    · intro x hx
      have := hnew x hx
      have hb : ¬((x.responseId == some startE.responseId && x.role == Role.agent) = true) := by
        intro hx2
        simp only [Bool.and_eq_true, beq_iff_eq] at hx2
        exact this ⟨hx2.1, hx2.2⟩
      simpa using hb
    · rw [applyEvent_responseId, applyEvent_role]
      simp [htokrid, htokrole]
  rw [hfindlast]
  show some ((applyEvent Mt endE).finished, (applyEvent Mt endE).isStreaming,
    (applyEvent Mt endE).content) = _
  rw [hendfields.1, hendfields.2.1, hendfields.2.2]
  rw [htokcontent, hM0content]

/-- Witness for the amended C3: start for `"A"` with content `"s"`, two
tokens `"x"`, `"y"`, and an end event without content, from the empty store. -/
theorem lifecycle_content_witness :
    (((runEvents ⟨("c"), []⟩
        [(0, { sampleEvent ("A") AgentStreamEventType.responseStart with
               content := some ("s") }),
         (1, { sampleEvent ("A") AgentStreamEventType.responseToken with
               token := some ("x") }),
         (2, { sampleEvent ("A") AgentStreamEventType.responseToken with
               token := some ("y") }),
         (3, sampleEvent ("A") AgentStreamEventType.responseEnd)]).messages.find?
        (fun m => m.responseId == some ("A") && m.role == Role.agent)).map
      (fun m => (m.finished, m.isStreaming, m.content))) =
      some (some true, some false, ("sxy")) := by
  have h := lifecycle_content ⟨("c"), []⟩
    { sampleEvent ("A") AgentStreamEventType.responseStart with content := some ("s") }
    (sampleEvent ("A") AgentStreamEventType.responseEnd)
    [(1, { sampleEvent ("A") AgentStreamEventType.responseToken with token := some ("x") }),
     (2, { sampleEvent ("A") AgentStreamEventType.responseToken with token := some ("y") })]
    0 3 rfl rfl rfl rfl rfl (by decide) (by simp)
  exact h.trans (by decide)

/-! ## Claim C4 — the isStreaming flag -/

/-- C4 (counterexample): the claim asserts the flag discipline even for
events that arrive after a message is finished.  But a `response-token`
after `response-end` sets `isStreaming = true` while leaving
`finished = true`, so a reachable message has `isStreaming = true` with
`finished = true`. -/
theorem streaming_flag_counterexample :
    ∃ m ∈ (runEvents ⟨("c"), []⟩
        [(0, sampleEvent ("A") AgentStreamEventType.responseStart),
         (1, sampleEvent ("A") AgentStreamEventType.responseEnd),
         (2, sampleEvent ("A") AgentStreamEventType.responseToken)]).messages,
      m.isStreaming = some true ∧ m.finished = some true := by
  decide

theorem insertionFor_streamFlag (now : Nat) (active : Bool)
    (e : AgentStreamEvent) :
    (insertionFor now active e).isStreaming = some true →
      ((insertionFor now active e).status = some AgentResponseStatus.thinking ∨
        (insertionFor now active e).status = some AgentResponseStatus.streaming) ∧
      (insertionFor now active e).finished ≠ some true := by
  intro h
  refine ⟨?_, by simp [insertionFor]⟩
  have hb : (e.status.getD
      (if e.type == AgentStreamEventType.responseToken then .streaming else .thinking) ==
        AgentResponseStatus.thinking ||
      e.status.getD
      (if e.type == AgentStreamEventType.responseToken then .streaming else .thinking) ==
        AgentResponseStatus.streaming) = true := by
    have h' : (insertionFor now active e).isStreaming = some true := h
    simpa [insertionFor] using h'
  rcases Bool.or_eq_true_iff.mp hb with hcase | hcase
  · left
    have hval : e.status.getD
        (if e.type == AgentStreamEventType.responseToken then .streaming else .thinking) =
        AgentResponseStatus.thinking := by simpa using hcase
    show some (e.status.getD
      (if e.type == AgentStreamEventType.responseToken then .streaming else .thinking)) =
      some AgentResponseStatus.thinking
    rw [hval]
  · right
    have hval : e.status.getD
        (if e.type == AgentStreamEventType.responseToken then .streaming else .thinking) =
        AgentResponseStatus.streaming := by simpa using hcase
    show some (e.status.getD
      (if e.type == AgentStreamEventType.responseToken then .streaming else .thinking)) =
      some AgentResponseStatus.streaming
    rw [hval]

theorem applyEvent_streamFlag (t : ConversationMessage) (e : AgentStreamEvent)
    (hstart : e.type = AgentStreamEventType.responseStart →
      e.status = none ∨ e.status = some AgentResponseStatus.thinking ∨
        e.status = some AgentResponseStatus.streaming)
    (htfin : t.finished ≠ some true)
    (ht : t.isStreaming = some true →
      (t.status = some AgentResponseStatus.thinking ∨
        t.status = some AgentResponseStatus.streaming) ∧ t.finished ≠ some true) :
    (applyEvent t e).isStreaming = some true →
      ((applyEvent t e).status = some AgentResponseStatus.thinking ∨
        (applyEvent t e).status = some AgentResponseStatus.streaming) ∧
      (applyEvent t e).finished ≠ some true := by
  rcases e with ⟨cid, rid, ty, st, tok, toks, cont⟩
  cases ty with
  | responseStart =>
    intro hstream
    refine ⟨?_, htfin⟩
    rcases hstart rfl with h | h | h <;> simp only at h <;> subst h
    · left
      rfl
    · left
      rfl
    · right
      rfl
  | responseToken =>
    intro hstream
    exact ⟨Or.inr rfl, htfin⟩
  | responseStatus =>
    intro hstream
    have hb0 : (some (st == some AgentResponseStatus.thinking ||
        st == some AgentResponseStatus.streaming) : Option Bool) = some true := hstream
    have hb : (st == some AgentResponseStatus.thinking ||
        st == some AgentResponseStatus.streaming) = true := Option.some.inj hb0
    rcases Bool.or_eq_true_iff.mp hb with hcase | hcase
    · have hst : st = some AgentResponseStatus.thinking := by simpa using hcase
      subst hst
      exact ⟨Or.inl rfl, htfin⟩
    · have hst : st = some AgentResponseStatus.streaming := by simpa using hcase
      subst hst
      exact ⟨Or.inr rfl, htfin⟩
  | responseEnd =>
    intro hstream
    have hb0 : (some false : Option Bool) = some true := hstream
    simp at hb0
  | responseError =>
    intro hstream
    have hb0 : (some false : Option Bool) = some true := hstream
    simp at hb0
  | responseStop =>
    intro hstream
    have hb0 : (some false : Option Bool) = some true := hstream
    simp at hb0
  | responseCelebration => exact ht

theorem mem_release_of_field_closed (P : ConversationMessage → Prop)
    (hP : ∀ m, P m → P { m with visible := true })
    (l : List ConversationMessage) (h : ∀ m ∈ l, P m) :
    ∀ m ∈ releaseQueuedAgentResponses l, P m := by
  rcases release_shape l with hs | ⟨i, hi, hs⟩
  · rw [hs]
    exact h
  · rw [hs]
    intro m hm
    rcases List.mem_or_eq_of_mem_set hm with hm' | hm'
    · exact h m hm'
    · subst hm'
      exact hP _ (h _ (l.getElem_mem hi))

theorem streamFlagInv_step (now : Nat) (s : AppState) (e : AgentStreamEvent)
    (hgood : GoodEvent s e)
    (ih : ∀ m ∈ s.messages, m.isStreaming = some true →
      (m.status = some AgentResponseStatus.thinking ∨
        m.status = some AgentResponseStatus.streaming) ∧ m.finished ≠ some true) :
    ∀ m ∈ (handleStreamEvent now s e).messages, m.isStreaming = some true →
      (m.status = some AgentResponseStatus.thinking ∨
        m.status = some AgentResponseStatus.streaming) ∧ m.finished ≠ some true := by
  by_cases hc : e.conversationId = s.conversationId
  case neg =>
    rw [handleStreamEvent_other_conversation now s e hc]
    exact ih
  case pos =>
  have hflip : ∀ m : ConversationMessage,
      (m.isStreaming = some true →
        (m.status = some AgentResponseStatus.thinking ∨
          m.status = some AgentResponseStatus.streaming) ∧ m.finished ≠ some true) →
      ({ m with visible := true }.isStreaming = some true →
        ({ m with visible := true }.status = some AgentResponseStatus.thinking ∨
          { m with visible := true }.status = some AgentResponseStatus.streaming) ∧
        { m with visible := true }.finished ≠ some true) :=
    fun m hm => hm
  cases hfi : s.messages.findIdx?
      (fun m => m.responseId == some e.responseId && m.role == Role.agent) with
  | some i =>
    obtain ⟨hi, hpi, hlt⟩ := findIdx?_some_spec _ _ i hfi
    have htrid : s.messages[i].responseId = some e.responseId := by
      have := ((Bool.and_eq_true _ _).mp hpi).1
      simpa using this
    have htrole : s.messages[i].role = Role.agent := by
      have := ((Bool.and_eq_true _ _).mp hpi).2
      simpa using this
    have htfin : s.messages[i].finished ≠ some true :=
      hgood.2 _ (s.messages.getElem_mem hi) htrid htrole
    have hnextP := applyEvent_streamFlag (s.messages[i]) e hgood.1 htfin
      (ih _ (s.messages.getElem_mem hi))
    have hsetP : ∀ m ∈ s.messages.set i (applyEvent (s.messages[i]) e),
        m.isStreaming = some true →
        (m.status = some AgentResponseStatus.thinking ∨
          m.status = some AgentResponseStatus.streaming) ∧ m.finished ≠ some true := by
      intro m hm
      rcases List.mem_or_eq_of_mem_set hm with hm' | hm'
      · exact ih m hm'
      · subst hm'
        exact hnextP
    rw [congrArg AppState.messages (handleStreamEvent_found now s e i hc hfi hi)]
    by_cases hfin : ((applyEvent (s.messages[i]) e).finished == some true) = true
    · rw [if_pos hfin]
      exact mem_release_of_field_closed _ hflip _ hsetP
    · rw [if_neg hfin]
      exact hsetP
  | none =>
    have hinsP := applyEvent_streamFlag (insertionFor now (hasActiveAgent s.messages) e) e
      hgood.1 (by simp [insertionFor]) (insertionFor_streamFlag now _ e)
    have happP : ∀ m ∈ s.messages ++ [applyEvent (insertionFor now (hasActiveAgent s.messages) e) e],
        m.isStreaming = some true →
        (m.status = some AgentResponseStatus.thinking ∨
          m.status = some AgentResponseStatus.streaming) ∧ m.finished ≠ some true := by
      intro m hm
      rcases List.mem_append.mp hm with hm' | hm'
      · exact ih m hm'
      · have : m = applyEvent (insertionFor now (hasActiveAgent s.messages) e) e := by
          simpa using hm'
        subst this
        exact hinsP
    rw [congrArg AppState.messages (handleStreamEvent_created now s e hc hfi)]
    by_cases hfin : ((applyEvent (insertionFor now (hasActiveAgent s.messages) e) e).finished
        == some true) = true
    · rw [if_pos hfin]
      exact mem_release_of_field_closed _ hflip _ happP
    · rw [if_neg hfin]
      exact happP

/-- C4 (amended): in every state reachable by dispatched stream events that
(a) never target an already-finished message and (b) carry, on
`response-start`, no status or only `thinking`/`streaming`, the flag
discipline holds: `isStreaming = true` only if the message status is
`thinking` or `streaming` and `finished` is not `true`.  The claim as stated
— covering post-finish events as well — is refuted by the counterexample:
a stray token after `response-end` leaves `isStreaming = true` on a finished
message, and a `response-start` carrying a terminal status similarly breaks
the status half. -/
theorem streaming_flag_invariant (c : String) (s : AppState)
    (h : GoodReach c s) :
    ∀ m ∈ s.messages, m.isStreaming = some true →
      (m.status = some AgentResponseStatus.thinking ∨
        m.status = some AgentResponseStatus.streaming) ∧ m.finished ≠ some true := by
  induction h with
  | init =>
    intro m hm
    simp at hm
  | step now s e hreach hgood ih =>
    exact streamFlagInv_step now s e hgood ih

/-- Witness for the amended C4: the single-step trace delivering a
status-less `response-start` for `"A"` to a fresh conversation; the created
message is streaming with status `thinking` and unfinished. -/
theorem streaming_flag_invariant_witness :
    ((applyEvent (insertionFor 0 (hasActiveAgent [])
          (sampleEvent ("A") AgentStreamEventType.responseStart))
        (sampleEvent ("A") AgentStreamEventType.responseStart)).status =
          some AgentResponseStatus.thinking ∨
      (applyEvent (insertionFor 0 (hasActiveAgent [])
          (sampleEvent ("A") AgentStreamEventType.responseStart))
        (sampleEvent ("A") AgentStreamEventType.responseStart)).status =
          some AgentResponseStatus.streaming) ∧
    (applyEvent (insertionFor 0 (hasActiveAgent [])
        (sampleEvent ("A") AgentStreamEventType.responseStart))
      (sampleEvent ("A") AgentStreamEventType.responseStart)).finished ≠ some true := by
  have hgood : GoodEvent ⟨("c"), []⟩ (sampleEvent ("A") AgentStreamEventType.responseStart) := by
    constructor
    · intro _
      left
      rfl
    · intro m hm
      simp at hm
  have hreach : GoodReach ("c")
      (handleStreamEvent 0 ⟨("c"), []⟩ (sampleEvent ("A") AgentStreamEventType.responseStart)) :=
    GoodReach.step 0 _ _ GoodReach.init hgood
  exact streaming_flag_invariant ("c") _ hreach
    (applyEvent (insertionFor 0 (hasActiveAgent [])
        (sampleEvent ("A") AgentStreamEventType.responseStart))
      (sampleEvent ("A") AgentStreamEventType.responseStart))
    (by decide) (by decide)
